import Mathlib

/-!
# Verification of the `Vortex` particle-field simulator

A shallow embedding of the particle animation component (`src/unnamed/part_000`,
the `Vortex` React component).  Numbers are modelled as exact rationals; the
external sources of nondeterminism (`Math.random`, and the composition of the
seeded `simplex-noise` field with `Math.cos`/`Math.sin`) are passed in as an
explicit environment, mirroring the fact that the code treats them as opaque
externals.  Every per-frame mutation of the flat `Float32Array` particle buffer
is modelled as a pure state transformer over a list of 9-field particle
records, in the exact order the code performs the writes.
-/

namespace Vortex

/-- Configuration props of the component, with the source's defaults
(`particleCount = 2000`, `rangeY = 400`, `baseSpeed = 0.0`, `rangeSpeed = 1.5`,
`baseRadius = 1`, `rangeRadius = 2`, `baseHue = 220`). -/
structure Config where
  particleCount : ℕ := 2000
  rangeY : ℚ := 400
  baseSpeed : ℚ := 0
  rangeSpeed : ℚ := 3 / 2
  baseRadius : ℚ := 1
  rangeRadius : ℚ := 2
  baseHue : ℚ := 220

/-- `constants.baseTTL` -/
def baseTTL : ℚ := 50

/-- `constants.rangeTTL` -/
def rangeTTL : ℚ := 150

/-- `constants.rangeHue` -/
def rangeHue : ℚ := 100

/-- `constants.xOff = 0.00125` -/
def xOff : ℚ := 1 / 800

/-- `constants.yOff = 0.00125` -/
def yOff : ℚ := 1 / 800

/-- `constants.zOff = 0.0005` -/
def zOff : ℚ := 1 / 2000

/-- `constants.COLOR_CHANGE_INTERVAL` (milliseconds) -/
def COLOR_CHANGE_INTERVAL : ℚ := 20000

/-- `constants.TRANSITION_SPEED = 0.02` -/
def TRANSITION_SPEED : ℚ := 1 / 50

/-- The external nondeterminism of the component.  `random k` is the value of
the `k`-th call to `Math.random()` (the code consumes these in a fixed
left-to-right order, so a stream indexed by a draw counter is faithful).
`cosAngle a b c` stands for `Math.cos(noise3D(a,b,c) * noiseSteps * TAU)` and
`sinAngle a b c` for `Math.sin(noise3D(a,b,c) * noiseSteps * TAU)`: the noise
field is an opaque seeded external and the angle it yields is irrational, so
the embedding abstracts the two trigonometric projections of the noise angle
as functions of the three noise coordinates. -/
structure Env where
  random : ℕ → ℚ
  cosAngle : ℚ → ℚ → ℚ → ℚ
  sinAngle : ℚ → ℚ → ℚ → ℚ

/-- `utils.rand: (n) => n * Math.random()`, with the drawn random `r` explicit. -/
def rand (n r : ℚ) : ℚ := n * r

/-- `utils.randRange: (n) => n - (n * Math.random() * 2)`, with the drawn
random `r` explicit. -/
def randRange (n r : ℚ) : ℚ := n - n * r * 2

/-- `utils.lerp: (n1, n2, speed) => (1 - speed) * n1 + speed * n2` -/
def lerp (n1 n2 speed : ℚ) : ℚ := (1 - speed) * n1 + speed * n2

/-- JavaScript's truncation toward zero, used by the `%` operator. -/
def jsTrunc (q : ℚ) : ℤ := if 0 ≤ q then ⌊q⌋ else ⌈q⌉

/-- JavaScript's `%` (remainder) operator on numbers: `x % m` has the sign of
the dividend, i.e. `x - m * trunc(x / m)`. -/
def jsMod (x m : ℚ) : ℚ := x - m * (jsTrunc (x / m) : ℚ)

/-- `utils.fadeInOut: (t, m) => { const hm = 0.5 * m; return
Math.abs(((t + hm) % m) - hm) / hm }` -/
def fadeInOut (t m : ℚ) : ℚ :=
  let hm := (1 / 2) * m
  |jsMod (t + hm) m - hm| / hm

/-- `utils.getNextColor: () => Math.floor(Math.random() * 360)`, with the
drawn random `r` explicit. -/
def getNextColor (r : ℚ) : ℚ := (⌊r * 360⌋ : ℚ)

/-- One particle: a stride-9 row of the flat `Float32Array` buffer, in the
source's field order `[x, y, vx, vy, age, lifetime, speed, radius, hue]`. -/
structure Particle where
  x : ℚ
  y : ℚ
  vx : ℚ
  vy : ℚ
  age : ℚ
  lifetime : ℚ
  speed : ℚ
  radius : ℚ
  hue : ℚ
deriving Repr, DecidableEq, Inhabited

/-- The stride-9 row of the flat buffer this particle occupies. -/
def Particle.flat (p : Particle) : List ℚ :=
  [p.x, p.y, p.vx, p.vy, p.age, p.lifetime, p.speed, p.radius, p.hue]

/-- `initParticle`: respawn of one slot.  `k` is the current `Math.random`
draw counter; the code draws, in order, `x`, `y`, `lifetime`, `speed`,
`radius`, `hue` (six draws).  `curHue` is `colorTransitionRef.current`.
Returns the fresh particle and the advanced draw counter. -/
def initParticle (cfg : Config) (env : Env) (canvasW centerY curHue : ℚ)
    (k : ℕ) : Particle × ℕ :=
  ({ x := rand canvasW (env.random k)
     y := centerY + randRange cfg.rangeY (env.random (k + 1))
     vx := 0
     vy := 0
     age := 0
     lifetime := baseTTL + rand rangeTTL (env.random (k + 2))
     speed := cfg.baseSpeed + rand cfg.rangeSpeed (env.random (k + 3))
     radius := cfg.baseRadius + rand cfg.rangeRadius (env.random (k + 4))
     hue := curHue + rand rangeHue (env.random (k + 5)) }, k + 6)

/-- One emitted stroke: the observable output of `drawParticle` when it does
not early-return. -/
structure DrawCmd where
  x : ℚ
  y : ℚ
  x2 : ℚ
  y2 : ℚ
  width : ℚ
  hue : ℚ
  alpha : ℚ
deriving Repr, DecidableEq

/-- `drawParticle`: computes `alpha = fadeInOut(life, ttl)` and early-returns
(no stroke) when `alpha < 0.01`. -/
def drawParticle (x y x2 y2 life ttl radius hue : ℚ) : Option DrawCmd :=
  let alpha := fadeInOut life ttl
  if alpha < 1 / 100 then none
  else some { x := x, y := y, x2 := x2, y2 := y2, width := radius,
              hue := hue, alpha := alpha }

/-- The boundary test of `updateAndDrawParticles`:
`x < -50 || x > canvas.width + 50 || y < -50 || y > canvas.height + 50`. -/
def outOfBounds (canvasW canvasH : ℚ) (p : Particle) : Prop :=
  p.x < -50 ∨ p.x > canvasW + 50 ∨ p.y < -50 ∨ p.y > canvasH + 50

instance (canvasW canvasH : ℚ) (p : Particle) :
    Decidable (outOfBounds canvasW canvasH p) := by
  unfold outOfBounds; infer_instance

/-- Result of one iteration of the per-particle loop body: the slot's new
contents, the advanced draw counter, the stroke emitted (if any), and whether
this iteration reinitialised the slot (either branch calling `initParticle`). -/
structure StepResult where
  particle : Particle
  k : ℕ
  draw : Option DrawCmd
  respawned : Bool
deriving Repr, DecidableEq

/-- The body of the `for` loop of `updateAndDrawParticles` for one slot:
boundary check (respawn and `continue` when outside), noise-driven velocity
easing, position advance, conditional hue easing toward `curHue`
(`colorTransitionRef.current`), draw, commit, age increment, and age-based
respawn.  `tick` is the global tick counter (already incremented by `animate`
before `draw` runs). -/
def stepParticle (cfg : Config) (env : Env) (canvasW canvasH centerY curHue : ℚ)
    (tick : ℕ) (k : ℕ) (p : Particle) : StepResult :=
  if outOfBounds canvasW canvasH p then
    let r := initParticle cfg env canvasW centerY curHue k
    { particle := r.1, k := r.2, draw := none, respawned := true }
  else
    let c := env.cosAngle (p.x * xOff) (p.y * yOff) ((tick : ℚ) * zOff)
    let s := env.sinAngle (p.x * xOff) (p.y * yOff) ((tick : ℚ) * zOff)
    let vx := lerp p.vx c (1 / 2)
    let vy := lerp p.vy s (1 / 2)
    let x2 := p.x + vx * p.speed
    let y2 := p.y + vy * p.speed
    let hue' := if |p.hue - curHue| > 1 then lerp p.hue curHue (1 / 10) else p.hue
    let cmd := drawParticle p.x p.y x2 y2 p.age p.lifetime p.radius hue'
    let age' := p.age + 1
    if age' > p.lifetime then
      let r := initParticle cfg env canvasW centerY curHue k
      { particle := r.1, k := r.2, draw := cmd, respawned := true }
    else
      { particle := { p with x := x2, y := y2, vx := vx, vy := vy,
                             age := age', hue := hue' },
        k := k, draw := cmd, respawned := false }

/-- The global color state: `colorTransitionRef` (`current`),
`targetColorRef` (`target`), `lastColorChangeRef` (`lastChange`). -/
structure ColorState where
  current : ℚ
  target : ℚ
  lastChange : ℚ
deriving Repr, DecidableEq

/-- The color-update prologue of `updateAndDrawParticles`: draw a new target
hue when `COLOR_CHANGE_INTERVAL` has elapsed, then always ease `current`
toward `target` by `TRANSITION_SPEED`. -/
def stepColor (env : Env) (now : ℚ) (k : ℕ) (cs : ColorState) :
    ColorState × ℕ :=
  if now - cs.lastChange ≥ COLOR_CHANGE_INTERVAL then
    ({ current := lerp cs.current (getNextColor (env.random k)) TRANSITION_SPEED,
       target := getNextColor (env.random k), lastChange := now }, k + 1)
  else
    ({ current := lerp cs.current cs.target TRANSITION_SPEED,
       target := cs.target, lastChange := cs.lastChange }, k)

/-- Full component state after mount: canvas size, spawn center, the particle
field, the global color state, the tick counter, and the draw counter of the
random stream. -/
structure SimState where
  canvasW : ℚ
  canvasH : ℚ
  center : ℚ × ℚ
  particles : List Particle
  color : ColorState
  tick : ℕ
  k : ℕ
deriving Repr

/-- Eager initialisation of every slot of the particle field (the
`for` loop over `particlePropsLength` in the mount effect), threading the
draw counter left to right. -/
def initParticles (cfg : Config) (env : Env) (canvasW centerY curHue : ℚ) :
    ℕ → ℕ → List Particle × ℕ
  | 0, k => ([], k)
  | n + 1, k =>
      let r := initParticle cfg env canvasW centerY curHue k
      let rest := initParticles cfg env canvasW centerY curHue n r.2
      (r.1 :: rest.1, rest.2)

/-- The mount effect: set `currentHue = targetHue = baseHue` and
`lastChange = now`, run `resize` (center = half the canvas size), then
initialise all `particleCount` slots; the tick counter starts at 0. -/
def initSim (cfg : Config) (env : Env) (canvasW canvasH now : ℚ) : SimState :=
  let r := initParticles cfg env canvasW (canvasH / 2) cfg.baseHue
      cfg.particleCount 0
  { canvasW := canvasW, canvasH := canvasH,
    center := (canvasW / 2, canvasH / 2),
    particles := r.1,
    color := { current := cfg.baseHue, target := cfg.baseHue, lastChange := now },
    tick := 0, k := r.2 }

/-- The `resize` handler: store the new canvas size and recompute the center;
nothing else is touched. -/
def resize (newW newH : ℚ) (s : SimState) : SimState :=
  { s with canvasW := newW, canvasH := newH, center := (newW / 2, newH / 2) }

/-- Result of the per-particle loop over the whole field. -/
structure FieldStep where
  particles : List Particle
  k : ℕ
  draws : List DrawCmd
  flags : List Bool
deriving Repr

/-- The per-particle loop of `updateAndDrawParticles`, over the whole field:
every slot is stepped with the same (already eased) `curHue`, threading the
draw counter; returns the new field, the final counter, the strokes emitted,
and the per-slot respawn flags in slot order. -/
def stepParticles (cfg : Config) (env : Env) (canvasW canvasH centerY curHue : ℚ)
    (tick : ℕ) : List Particle → ℕ → FieldStep
  | [], k => { particles := [], k := k, draws := [], flags := [] }
  | p :: ps, k =>
      let r := stepParticle cfg env canvasW canvasH centerY curHue tick k p
      let rest := stepParticles cfg env canvasW canvasH centerY curHue tick ps r.k
      { particles := r.particle :: rest.particles, k := rest.k,
        draws := r.draw.toList ++ rest.draws,
        flags := r.respawned :: rest.flags }

/-- One animation frame (`animate`, then `draw`, then
`updateAndDrawParticles`): increment the tick counter, update the global
color state, then run the per-particle loop with the freshly eased hue.
`now` is the `Date.now()` value of this frame. -/
def tickSim (cfg : Config) (env : Env) (now : ℚ) (s : SimState) :
    SimState × List DrawCmd :=
  let tick' := s.tick + 1
  let cs := stepColor env now s.k s.color
  let fs := stepParticles cfg env s.canvasW s.canvasH
      s.center.2 cs.1.current tick' s.particles cs.2
  ({ s with particles := fs.particles, color := cs.1, tick := tick',
            k := fs.k }, fs.draws)

/-- Run `n` frames from a state; `nowAt i` is the clock value seen by the
frame that advances the tick counter from `i` to `i + 1`. -/
def runSim (cfg : Config) (env : Env) (nowAt : ℕ → ℚ) : ℕ → SimState → SimState
  | 0, s => s
  | n + 1, s => runSim cfg env nowAt n (tickSim cfg env (nowAt s.tick) s).1

/-- The flat buffer contents: the particle field serialised at stride 9,
as `particleProps` stores it. -/
def flatBuffer (s : SimState) : List ℚ := s.particles.flatMap Particle.flat

/-- The evolution of a single slot across frames: the slot's particle, the
draw counter as this slot sees it, and how many times the slot has been
reinitialised.  (Each frame touches the slots independently, so one slot's
age/lifetime/respawn behaviour is fully described by iterating its own loop
body.) -/
structure PState where
  p : Particle
  k : ℕ
  respawns : ℕ
deriving Repr

/-- One frame of a single slot: run the loop body and count a respawn when
either branch reinitialised the slot.  `ch` is the global eased hue during
this frame and `t` the tick counter. -/
def stepP (cfg : Config) (env : Env) (w h cy ch : ℚ) (t : ℕ)
    (st : PState) : PState :=
  let r := stepParticle cfg env w h cy ch t st.k st.p
  { p := r.particle, k := r.k,
    respawns := st.respawns + (if r.respawned then 1 else 0) }

/-- Iterate a single slot for `n` frames starting at tick `t0`; `hueAt t` is
the global eased hue during the frame with tick counter `t`. -/
def runP (cfg : Config) (env : Env) (w h cy : ℚ) (hueAt : ℕ → ℚ) :
    ℕ → ℕ → PState → PState
  | _, 0, st => st
  | t0, n + 1, st =>
      runP cfg env w h cy hueAt (t0 + 1) n (stepP cfg env w h cy (hueAt t0) t0 st)

/-- Invariant for the age/lifetime claims: every particle of the field has a
non-negative age and a lifetime of at least `baseTTL`. -/
def ageInv (ps : List Particle) : Prop :=
  ∀ p ∈ ps, 0 ≤ p.age ∧ baseTTL ≤ p.lifetime

/-- Invariant for the velocity claims: every particle of the field has both
direction components in `[-1, 1]` and a non-negative speed. -/
def velInv (ps : List Particle) : Prop :=
  ∀ p ∈ ps, |p.vx| ≤ 1 ∧ |p.vy| ≤ 1 ∧ 0 ≤ p.speed

/-- A quiet environment for concrete evaluations: every `Math.random` call
returns 0 and the noise angle projections are constantly 0. -/
def calmEnv : Env :=
  { random := fun _ => 0
    cosAngle := fun _ _ _ => 0
    sinAngle := fun _ _ _ => 0 }

/-- Configuration with `baseHue = 300` and a single particle, used to probe
the range of the per-particle hue. -/
def hueDemoCfg : Config := { particleCount := 1, baseHue := 300 }

/-- Environment whose random stream is constantly `0.9`. -/
def hueDemoEnv : Env :=
  { random := fun _ => 9 / 10
    cosAngle := fun _ _ _ => 0
    sinAngle := fun _ _ _ => 0 }

/-- Configuration with `rangeSpeed = 0` (and `baseSpeed = 1`), used to probe
the spawn-time speed interval. -/
def zeroRangeCfg : Config := { baseSpeed := 1, rangeSpeed := 0 }

/-- The end-to-end scenario configuration of the specification:
`particleCount = 10`, `baseHue = 0`, `rangeSpeed = 0`, `baseSpeed = 1`. -/
def boxDemoCfg : Config :=
  { particleCount := 10, baseHue := 0, rangeSpeed := 0, baseSpeed := 1 }

/-- An adversarial but admissible environment for the end-to-end scenario:
the random stream yields `0.995` for `x` draws, `0.5` for `y` draws and `0.9`
for lifetime draws (all in `[0, 1)`), and the noise angle happens to always
project to `(cos, sin) = (1, 0)`, pushing every particle steadily to the
right. -/
def boxDemoEnv : Env :=
  { random := fun j =>
      if j % 6 = 0 then 199 / 200
      else if j % 6 = 1 then 1 / 2
      else if j % 6 = 2 then 9 / 10
      else 0
    cosAngle := fun _ _ _ => 1
    sinAngle := fun _ _ _ => 0 }

/-- The end-to-end scenario run: `boxDemoCfg` on a 100×100 surface with a
constant clock. -/
def boxDemoRun (n : ℕ) : SimState :=
  runSim boxDemoCfg boxDemoEnv (fun _ => 0) n (initSim boxDemoCfg boxDemoEnv 100 100 0)

/-- Invariant of the end-to-end scenario (`boxDemoCfg` on a 100×100
surface): every particle's `x` is within `[-51, 151]`, its `vx` within
`[-1, 1]`, and its per-particle speed is exactly 1. -/
def boxInv (ps : List Particle) : Prop :=
  ∀ p ∈ ps, (-51 ≤ p.x ∧ p.x ≤ 151) ∧ |p.vx| ≤ 1 ∧ p.speed = 1

/-- A color state in mid-transition, used to exercise the easing step. -/
def demoColor : ColorState := { current := 0, target := 100, lastChange := 0 }

/-- An out-of-bounds particle used to exercise the boundary branch. -/
def farParticle : Particle :=
  { x := 500, y := 10, vx := 1, vy := 0, age := 7, lifetime := 60,
    speed := 1, radius := 1, hue := 20 }

/-- An in-bounds particle with a short lifetime, used to exercise the
age-driven respawn. -/
def shortLivedParticle : Particle :=
  { x := 10, y := 10, vx := 0, vy := 0, age := 0, lifetime := 3,
    speed := 1, radius := 1, hue := 0 }

end Vortex

namespace Vortex

/-! ## Helper lemmas -/

theorem jsMod_nonneg_lt (x m : ℚ) (hx : 0 ≤ x) (hm : 0 < m) :
    0 ≤ jsMod x m ∧ jsMod x m < m := by
  have hq : 0 ≤ x / m := div_nonneg hx hm.le
  unfold jsMod jsTrunc
  rw [if_pos hq]
  have key : x - m * (⌊x / m⌋ : ℚ) = m * Int.fract (x / m) := by
    rw [Int.fract]
    field_simp
  rw [key]
  constructor
  · exact mul_nonneg hm.le (Int.fract_nonneg _)
  · calc m * Int.fract (x / m) < m * 1 :=
        mul_lt_mul_of_pos_left (Int.fract_lt_one _) hm
    _ = m := mul_one m

theorem jsMod_eq_self (x m : ℚ) (h0 : 0 ≤ x) (h1 : x < m) : jsMod x m = x := by
  have hm : 0 < m := lt_of_le_of_lt h0 h1
  have hq : 0 ≤ x / m := div_nonneg h0 hm.le
  unfold jsMod jsTrunc
  rw [if_pos hq]
  have hfl : ⌊x / m⌋ = 0 :=
    Int.floor_eq_zero_iff.mpr ⟨hq, (div_lt_one hm).mpr h1⟩
  rw [hfl]
  push_cast
  ring

theorem jsMod_eq_sub (x m : ℚ) (hm : 0 < m) (h0 : m ≤ x) (h1 : x < 2 * m) :
    jsMod x m = x - m := by
  have hq : 0 ≤ x / m := div_nonneg (le_trans hm.le h0) hm.le
  unfold jsMod jsTrunc
  rw [if_pos hq]
  have hfl : ⌊x / m⌋ = 1 := by
    rw [Int.floor_eq_iff]
    constructor
    · push_cast
      exact (one_le_div hm).mpr h0
    · push_cast
      rw [div_lt_iff₀ hm]
      linarith
  rw [hfl]
  push_cast
  ring

theorem fadeInOut_mem (t m : ℚ) (ht : 0 ≤ t) (hm : 0 < m) :
    0 ≤ fadeInOut t m ∧ fadeInOut t m ≤ 1 := by
  have hhm : 0 < (1 / 2) * m := by positivity
  obtain ⟨h0, h1⟩ := jsMod_nonneg_lt (t + (1 / 2) * m) m (by linarith) hm
  simp only [fadeInOut]
  constructor
  · positivity
  · rw [div_le_one hhm, abs_le]
    constructor <;> linarith

theorem lerp_mem (a b s : ℚ) (h0 : 0 ≤ s) (h1 : s ≤ 1) :
    min a b ≤ lerp a b s ∧ lerp a b s ≤ max a b := by
  unfold lerp
  rcases le_total a b with hab | hab
  · rw [min_eq_left hab, max_eq_right hab]
    constructor <;> nlinarith
  · rw [min_eq_right hab, max_eq_left hab]
    constructor <;> nlinarith

theorem abs_lerp_half_le (v c : ℚ) (hv : |v| ≤ 1) (hc : |c| ≤ 1) :
    |lerp v c (1 / 2)| ≤ 1 := by
  unfold lerp
  rw [abs_le] at hv hc ⊢
  constructor <;> nlinarith

theorem rand_mem (n r : ℚ) (hn : 0 < n) (h0 : 0 ≤ r) (h1 : r < 1) :
    0 ≤ rand n r ∧ rand n r < n := by
  unfold rand
  exact ⟨mul_nonneg hn.le h0, by nlinarith⟩

theorem rand_nonneg (n r : ℚ) (hn : 0 ≤ n) (h0 : 0 ≤ r) : 0 ≤ rand n r :=
  mul_nonneg hn h0

/-- The fields of a freshly initialised particle, unfolded. -/
theorem initParticle_fields (cfg : Config) (env : Env) (w cy ch : ℚ) (k : ℕ) :
    (initParticle cfg env w cy ch k).1.x = rand w (env.random k) ∧
    (initParticle cfg env w cy ch k).1.y
      = cy + randRange cfg.rangeY (env.random (k + 1)) ∧
    (initParticle cfg env w cy ch k).1.vx = 0 ∧
    (initParticle cfg env w cy ch k).1.vy = 0 ∧
    (initParticle cfg env w cy ch k).1.age = 0 ∧
    (initParticle cfg env w cy ch k).1.lifetime
      = baseTTL + rand rangeTTL (env.random (k + 2)) ∧
    (initParticle cfg env w cy ch k).1.speed
      = cfg.baseSpeed + rand cfg.rangeSpeed (env.random (k + 3)) ∧
    (initParticle cfg env w cy ch k).1.radius
      = cfg.baseRadius + rand cfg.rangeRadius (env.random (k + 4)) ∧
    (initParticle cfg env w cy ch k).1.hue
      = ch + rand rangeHue (env.random (k + 5)) ∧
    (initParticle cfg env w cy ch k).2 = k + 6 := by
  unfold initParticle
  exact ⟨rfl, rfl, rfl, rfl, rfl, rfl, rfl, rfl, rfl, rfl⟩

end Vortex

namespace Vortex

/-- Unfolding of the loop body when the boundary check fires. -/
theorem stepParticle_oob_eq (cfg : Config) (env : Env) (w h cy ch : ℚ)
    (t k : ℕ) (p : Particle) (hout : outOfBounds w h p) :
    stepParticle cfg env w h cy ch t k p =
      { particle := (initParticle cfg env w cy ch k).1,
        k := (initParticle cfg env w cy ch k).2,
        draw := none, respawned := true } := by
  unfold stepParticle
  rw [if_pos hout]

/-- Unfolding of the loop body when the particle is in bounds and survives
the age check. -/
theorem stepParticle_survive_eq (cfg : Config) (env : Env) (w h cy ch : ℚ)
    (t k : ℕ) (p : Particle) (hout : ¬ outOfBounds w h p)
    (hage : ¬ (p.age + 1 > p.lifetime)) :
    stepParticle cfg env w h cy ch t k p =
      { particle :=
          { p with
            x := p.x + lerp p.vx
                (env.cosAngle (p.x * xOff) (p.y * yOff) ((t : ℚ) * zOff))
                (1 / 2) * p.speed,
            y := p.y + lerp p.vy
                (env.sinAngle (p.x * xOff) (p.y * yOff) ((t : ℚ) * zOff))
                (1 / 2) * p.speed,
            vx := lerp p.vx
                (env.cosAngle (p.x * xOff) (p.y * yOff) ((t : ℚ) * zOff)) (1 / 2),
            vy := lerp p.vy
                (env.sinAngle (p.x * xOff) (p.y * yOff) ((t : ℚ) * zOff)) (1 / 2),
            age := p.age + 1,
            hue := if |p.hue - ch| > 1 then lerp p.hue ch (1 / 10) else p.hue },
        k := k,
        draw := drawParticle p.x p.y
            (p.x + lerp p.vx
                (env.cosAngle (p.x * xOff) (p.y * yOff) ((t : ℚ) * zOff))
                (1 / 2) * p.speed)
            (p.y + lerp p.vy
                (env.sinAngle (p.x * xOff) (p.y * yOff) ((t : ℚ) * zOff))
                (1 / 2) * p.speed)
            p.age p.lifetime p.radius
            (if |p.hue - ch| > 1 then lerp p.hue ch (1 / 10) else p.hue),
        respawned := false } := by
  unfold stepParticle
  rw [if_neg hout]
  simp only
  rw [if_neg hage]

/-- Unfolding of the loop body when the particle is in bounds but its
incremented age exceeds its lifetime. -/
theorem stepParticle_ageRespawn_eq (cfg : Config) (env : Env) (w h cy ch : ℚ)
    (t k : ℕ) (p : Particle) (hout : ¬ outOfBounds w h p)
    (hage : p.age + 1 > p.lifetime) :
    stepParticle cfg env w h cy ch t k p =
      { particle := (initParticle cfg env w cy ch k).1,
        k := (initParticle cfg env w cy ch k).2,
        draw := drawParticle p.x p.y
            (p.x + lerp p.vx
                (env.cosAngle (p.x * xOff) (p.y * yOff) ((t : ℚ) * zOff))
                (1 / 2) * p.speed)
            (p.y + lerp p.vy
                (env.sinAngle (p.x * xOff) (p.y * yOff) ((t : ℚ) * zOff))
                (1 / 2) * p.speed)
            p.age p.lifetime p.radius
            (if |p.hue - ch| > 1 then lerp p.hue ch (1 / 10) else p.hue),
        respawned := true } := by
  unfold stepParticle
  rw [if_neg hout]
  simp only
  rw [if_pos hage]

end Vortex

namespace Vortex

/-! ## C5: boundary values of the fade envelope -/

/-- C5: for every `m > 0`, the triangular fade envelope satisfies
`fadeInOut 0 m = 0`, `fadeInOut (m/2) m = 1` and `fadeInOut m m = 0`. -/
theorem fadeInOut_envelope_boundaries (m : ℚ) (hm : 0 < m) :
    fadeInOut 0 m = 0 ∧ fadeInOut (m / 2) m = 1 ∧ fadeInOut m m = 0 := by
  have hhm : (0 : ℚ) < 1 / 2 * m := by positivity
  refine ⟨?_, ?_, ?_⟩
  · simp only [fadeInOut]
    rw [jsMod_eq_self (0 + 1 / 2 * m) m (by linarith) (by linarith)]
    rw [show (0 : ℚ) + 1 / 2 * m - 1 / 2 * m = 0 by ring, abs_zero, zero_div]
  · simp only [fadeInOut]
    rw [show m / 2 + 1 / 2 * m = m by ring]
    rw [jsMod_eq_sub m m hm le_rfl (by linarith)]
    rw [show m - m - 1 / 2 * m = -(1 / 2 * m) by ring, abs_neg, abs_of_pos hhm]
    exact div_self hhm.ne'
  · simp only [fadeInOut]
    rw [show m + 1 / 2 * m = 3 / 2 * m by ring]
    rw [jsMod_eq_sub (3 / 2 * m) m hm (by linarith) (by linarith)]
    rw [show 3 / 2 * m - m - 1 / 2 * m = 0 by ring, abs_zero, zero_div]

/-- Witness for C5 at `m = 2`. -/
theorem fadeInOut_envelope_boundaries_witness :
    (0 : ℚ) < 2 ∧ (fadeInOut 0 2 = 0 ∧ fadeInOut 1 2 = 1 ∧ fadeInOut 2 2 = 0) := by
  have h := fadeInOut_envelope_boundaries 2 (by norm_num)
  norm_num at h ⊢
  exact h

/-! ## C6: spawn-time randomized intervals -/

/-- C6 (amended): at every spawn, provided the configured `rangeSpeed` and
`rangeRadius` are strictly positive (the lifetime range is the fixed
`rangeTTL = 150 > 0`), the drawn lifetime, speed and radius lie in the
half-open intervals `[baseTTL, baseTTL + rangeTTL)`,
`[baseSpeed, baseSpeed + rangeSpeed)` and
`[baseRadius, baseRadius + rangeRadius)`, for every value of the random
source in `[0, 1)`. -/
theorem spawn_draw_intervals (cfg : Config) (env : Env) (w cy ch : ℚ) (k : ℕ)
    (hr : ∀ j, 0 ≤ env.random j ∧ env.random j < 1)
    (hsp : 0 < cfg.rangeSpeed) (hrad : 0 < cfg.rangeRadius) :
    (baseTTL ≤ (initParticle cfg env w cy ch k).1.lifetime ∧
      (initParticle cfg env w cy ch k).1.lifetime < baseTTL + rangeTTL) ∧
    (cfg.baseSpeed ≤ (initParticle cfg env w cy ch k).1.speed ∧
      (initParticle cfg env w cy ch k).1.speed
        < cfg.baseSpeed + cfg.rangeSpeed) ∧
    (cfg.baseRadius ≤ (initParticle cfg env w cy ch k).1.radius ∧
      (initParticle cfg env w cy ch k).1.radius
        < cfg.baseRadius + cfg.rangeRadius) := by
  have hT := rand_mem rangeTTL (env.random (k + 2))
    (by norm_num [rangeTTL]) (hr _).1 (hr _).2
  have hS := rand_mem cfg.rangeSpeed (env.random (k + 3)) hsp (hr _).1 (hr _).2
  have hR := rand_mem cfg.rangeRadius (env.random (k + 4)) hrad (hr _).1 (hr _).2
  obtain ⟨-, -, -, -, -, hLt, hSp, hRd, -, -⟩ :=
    initParticle_fields cfg env w cy ch k
  rw [hLt, hSp, hRd]
  exact ⟨⟨by linarith [hT.1], by linarith [hT.2]⟩,
    ⟨by linarith [hS.1], by linarith [hS.2]⟩,
    ⟨by linarith [hR.1], by linarith [hR.2]⟩⟩

/-- Witness for C6 (amended) with the default configuration, a zero random
stream, `canvasW = 100`, `centerY = 50`, `curHue = 220`, draw counter 0. -/
theorem spawn_draw_intervals_witness :
    ((∀ j, 0 ≤ calmEnv.random j ∧ calmEnv.random j < 1) ∧
      0 < ({} : Config).rangeSpeed ∧ 0 < ({} : Config).rangeRadius) ∧
    (baseTTL ≤ (initParticle {} calmEnv 100 50 220 0).1.lifetime ∧
      (initParticle {} calmEnv 100 50 220 0).1.lifetime < baseTTL + rangeTTL) :=
  ⟨⟨fun _ => by norm_num [calmEnv], by norm_num, by norm_num⟩,
    (spawn_draw_intervals {} calmEnv 100 50 220 0
      (fun _ => by norm_num [calmEnv]) (by norm_num) (by norm_num)).1⟩

/-- Counterexample to C6 as stated: with the non-negative configured range
`rangeSpeed = 0` (and `baseSpeed = 1`), the spawned speed is `1`, which does
not lie in the empty half-open interval `[1, 1 + 0)`. -/
theorem spawn_speed_outside_empty_interval :
    (initParticle zeroRangeCfg calmEnv 100 50 0 0).1.speed = 1 ∧
    ¬ ((initParticle zeroRangeCfg calmEnv 100 50 0 0).1.speed
        < zeroRangeCfg.baseSpeed + zeroRangeCfg.rangeSpeed) := by
  with_unfolding_all decide

/-! ## C2: range of the per-particle hue -/

/-- C2 (amended): a spawned particle's hue lies in
`[currentHue, currentHue + rangeHue)` for every random value in `[0, 1)`, and
the per-frame easing of a surviving particle keeps its hue between its old
hue and the global eased hue; the hue is not confined to `[0, 360)`. -/
theorem spawn_hue_near_current (cfg : Config) (env : Env) (w h cy ch : ℚ)
    (t k : ℕ) (h0 : 0 ≤ env.random (k + 5)) (h1 : env.random (k + 5) < 1) :
    (ch ≤ (initParticle cfg env w cy ch k).1.hue ∧
      (initParticle cfg env w cy ch k).1.hue < ch + rangeHue) ∧
    (∀ p : Particle, ¬ outOfBounds w h p → ¬ (p.age + 1 > p.lifetime) →
      min p.hue ch ≤ (stepParticle cfg env w h cy ch t k p).particle.hue ∧
      (stepParticle cfg env w h cy ch t k p).particle.hue ≤ max p.hue ch) := by
  constructor
  · obtain ⟨-, -, -, -, -, -, -, -, hH, -⟩ :=
      initParticle_fields cfg env w cy ch k
    rw [hH]
    have hmem := rand_mem rangeHue (env.random (k + 5))
      (by norm_num [rangeHue]) h0 h1
    exact ⟨by linarith [hmem.1], by linarith [hmem.2]⟩
  · intro p hout hage
    rw [stepParticle_survive_eq cfg env w h cy ch t k p hout hage]
    dsimp only
    by_cases hd : |p.hue - ch| > 1
    · rw [if_pos hd]
      exact lerp_mem p.hue ch (1 / 10) (by norm_num) (by norm_num)
    · rw [if_neg hd]
      exact ⟨min_le_left _ _, le_max_left _ _⟩

/-- Witness for C2 (amended): default configuration, zero random stream,
`curHue = 220`. -/
theorem spawn_hue_near_current_witness :
    (0 ≤ calmEnv.random 5 ∧ calmEnv.random 5 < 1) ∧
    (220 ≤ (initParticle {} calmEnv 100 100 220 0).1.hue ∧
      (initParticle {} calmEnv 100 100 220 0).1.hue < 220 + rangeHue) :=
  ⟨⟨by norm_num [calmEnv], by norm_num [calmEnv]⟩,
    (spawn_hue_near_current {} calmEnv 100 100 100 220 1 0
      (by norm_num [calmEnv]) (by norm_num [calmEnv])).1⟩

/-- Counterexample to C2 as stated: constructing the component with
`baseHue = 300` and an admissible random stream (constantly `0.9`) produces a
particle whose hue is `390`, outside `[0, 360)`. -/
theorem spawn_hue_can_reach_390 :
    (initSim hueDemoCfg hueDemoEnv 100 100 0).particles.headI.hue = 390 ∧
    ¬ ((initSim hueDemoCfg hueDemoEnv 100 100 0).particles.headI.hue < 360) := by
  with_unfolding_all decide

/-! ## C7: out-of-bounds particles are respawned, skipping the frame -/

/-- C7: when a particle starts a frame outside the expanded box
`[-50, w+50] × [-50, h+50]`, the loop body reinitialises the slot (the six
spawn draws are consumed, so the fresh age is 0 and a fresh lifetime is
drawn) regardless of the old age, emits no stroke, and performs none of the
noise/velocity/position/hue/aging updates: the result is exactly the
freshly-initialised slot. -/
theorem oob_respawn_skips_frame (cfg : Config) (env : Env) (w h cy ch : ℚ)
    (t k : ℕ) (p : Particle) (hout : outOfBounds w h p) :
    stepParticle cfg env w h cy ch t k p =
      { particle := (initParticle cfg env w cy ch k).1,
        k := (initParticle cfg env w cy ch k).2,
        draw := none, respawned := true } := by
  unfold stepParticle
  rw [if_pos hout]

/-- Witness for C7: a particle at `x = 500` on a `100 × 100` surface. -/
theorem oob_respawn_skips_frame_witness :
    outOfBounds 100 100 farParticle ∧
    stepParticle {} calmEnv 100 100 50 0 1 0 farParticle =
      { particle := (initParticle {} calmEnv 100 50 0 0).1,
        k := (initParticle {} calmEnv 100 50 0 0).2,
        draw := none, respawned := true } :=
  ⟨by with_unfolding_all decide,
    oob_respawn_skips_frame {} calmEnv 100 100 50 0 1 0 farParticle
      (by with_unfolding_all decide)⟩

end Vortex

namespace Vortex

/-! ## C8: resize touches only size and center; buffer length invariant -/

theorem initParticles_length (cfg : Config) (env : Env) (w cy ch : ℚ) :
    ∀ n k, (initParticles cfg env w cy ch n k).1.length = n := by
  intro n
  induction n with
  | zero => intro k; rfl
  | succ n ih => intro k; simp [initParticles, ih]

theorem stepParticles_length (cfg : Config) (env : Env) (w h cy ch : ℚ)
    (t : ℕ) : ∀ (ps : List Particle) (k : ℕ),
      (stepParticles cfg env w h cy ch t ps k).particles.length = ps.length := by
  intro ps
  induction ps with
  | nil => intro k; rfl
  | cons p ps ih => intro k; simp [stepParticles, ih]

theorem flatMap_flat_length (ps : List Particle) :
    (ps.flatMap Particle.flat).length = 9 * ps.length := by
  induction ps with
  | nil => rfl
  | cons p ps ih =>
      simp only [List.flatMap_cons, List.length_append, List.length_cons, ih,
        Particle.flat, List.length_nil]
      omega

theorem initSim_particles (cfg : Config) (env : Env) (w h now : ℚ) :
    (initSim cfg env w h now).particles
      = (initParticles cfg env w (h / 2) cfg.baseHue cfg.particleCount 0).1 := rfl

theorem tickSim_particles (cfg : Config) (env : Env) (now : ℚ) (s : SimState) :
    (tickSim cfg env now s).1.particles
      = (stepParticles cfg env s.canvasW s.canvasH s.center.2
          (stepColor env now s.k s.color).1.current (s.tick + 1) s.particles
          (stepColor env now s.k s.color).2).particles := rfl

/-- C8: `resize` rewrites only the stored canvas size and the 2-component
center; the particle field (hence the flat buffer) is untouched, as are the
color state, tick and draw counters.  The flat buffer has length
`particleCount × 9` at allocation, and every frame preserves its length. -/
theorem resize_preserves_buffer (cfg : Config) (env : Env)
    (w h now now2 newW newH : ℚ) (s : SimState) :
    (resize newW newH s).canvasW = newW ∧
    (resize newW newH s).canvasH = newH ∧
    (resize newW newH s).center = (newW / 2, newH / 2) ∧
    (resize newW newH s).particles = s.particles ∧
    (resize newW newH s).color = s.color ∧
    (resize newW newH s).tick = s.tick ∧
    (resize newW newH s).k = s.k ∧
    flatBuffer (resize newW newH s) = flatBuffer s ∧
    (flatBuffer (initSim cfg env w h now)).length = cfg.particleCount * 9 ∧
    (flatBuffer ((tickSim cfg env now2 s).1)).length = (flatBuffer s).length := by
  refine ⟨rfl, rfl, rfl, rfl, rfl, rfl, rfl, rfl, ?_, ?_⟩
  · unfold flatBuffer
    rw [initSim_particles, flatMap_flat_length,
      initParticles_length cfg env w (h / 2) cfg.baseHue cfg.particleCount 0]
    exact Nat.mul_comm 9 cfg.particleCount
  · unfold flatBuffer
    rw [tickSim_particles, flatMap_flat_length, flatMap_flat_length,
      stepParticles_length]

/-! ## C4: the global hue easing never overshoots -/

theorem lerp_toward (a b : ℚ) :
    min a b ≤ lerp a b TRANSITION_SPEED ∧
    lerp a b TRANSITION_SPEED ≤ max a b ∧
    (a ≠ b → |lerp a b TRANSITION_SPEED - b| < |a - b|) := by
  have h1 := lerp_mem a b TRANSITION_SPEED
    (by norm_num [TRANSITION_SPEED]) (by norm_num [TRANSITION_SPEED])
  refine ⟨h1.1, h1.2, fun hne => ?_⟩
  have hrw : lerp a b TRANSITION_SPEED - b = (1 - TRANSITION_SPEED) * (a - b) := by
    unfold lerp TRANSITION_SPEED
    ring
  have hab : 0 < |a - b| := abs_pos.mpr (sub_ne_zero.mpr hne)
  rw [hrw, abs_mul]
  have hco : |1 - TRANSITION_SPEED| < 1 := by
    rw [show (1 : ℚ) - TRANSITION_SPEED = 49 / 50 by norm_num [TRANSITION_SPEED]]
    rw [abs_of_pos (by norm_num)]
    norm_num
  nlinarith

/-- C4: immediately after construction `currentHue = targetHue = baseHue`;
and each frame's color update moves `currentHue` strictly toward the target
in effect during that frame (whenever they differ), never leaving the closed
interval between the old `currentHue` and that target. -/
theorem global_hue_easing (cfg : Config) (env env2 : Env) (w h now now2 : ℚ)
    (k : ℕ) (cs : ColorState) :
    ((initSim cfg env w h now).color.current = cfg.baseHue ∧
      (initSim cfg env w h now).color.target = cfg.baseHue) ∧
    (min cs.current (stepColor env2 now2 k cs).1.target
        ≤ (stepColor env2 now2 k cs).1.current ∧
      (stepColor env2 now2 k cs).1.current
        ≤ max cs.current (stepColor env2 now2 k cs).1.target) ∧
    (cs.current ≠ (stepColor env2 now2 k cs).1.target →
      |(stepColor env2 now2 k cs).1.current
          - (stepColor env2 now2 k cs).1.target|
        < |cs.current - (stepColor env2 now2 k cs).1.target|) := by
  refine ⟨⟨rfl, rfl⟩, ?_⟩
  by_cases hcond : now2 - cs.lastChange ≥ COLOR_CHANGE_INTERVAL
  · unfold stepColor
    rw [if_pos hcond]
    dsimp only
    have h := lerp_toward cs.current (getNextColor (env2.random k))
    exact ⟨⟨h.1, h.2.1⟩, h.2.2⟩
  · unfold stepColor
    rw [if_neg hcond]
    dsimp only
    have h := lerp_toward cs.current cs.target
    exact ⟨⟨h.1, h.2.1⟩, h.2.2⟩

/-- Witness for C4: a mid-transition color state with `current = 0`,
`target = 100`, stepped with a clock that has not reached the change
interval. -/
theorem global_hue_easing_witness :
    ((initSim {} calmEnv 100 100 0).color.current = ({} : Config).baseHue ∧
      demoColor.current ≠ (stepColor calmEnv 0 0 demoColor).1.target) ∧
    |(stepColor calmEnv 0 0 demoColor).1.current
        - (stepColor calmEnv 0 0 demoColor).1.target|
      < |demoColor.current - (stepColor calmEnv 0 0 demoColor).1.target| :=
  ⟨⟨(global_hue_easing {} calmEnv calmEnv 100 100 0 0 0 demoColor).1.1,
      by with_unfolding_all decide⟩,
    (global_hue_easing {} calmEnv calmEnv 100 100 0 0 0 demoColor).2.2
      (by with_unfolding_all decide)⟩

end Vortex

namespace Vortex

/-! ## C9: lifetimes stay positive, alpha stays in [0, 1] -/

theorem initParticle_age_ttl (cfg : Config) (env : Env) (w cy ch : ℚ) (k : ℕ)
    (hr : ∀ j, 0 ≤ env.random j) :
    0 ≤ (initParticle cfg env w cy ch k).1.age ∧
    baseTTL ≤ (initParticle cfg env w cy ch k).1.lifetime := by
  obtain ⟨-, -, -, -, hA, hL, -, -, -, -⟩ := initParticle_fields cfg env w cy ch k
  rw [hA, hL]
  have := rand_nonneg rangeTTL (env.random (k + 2)) (by norm_num [rangeTTL]) (hr _)
  exact ⟨le_refl 0, by linarith⟩

theorem stepParticle_age_ttl (cfg : Config) (env : Env) (w h cy ch : ℚ)
    (t k : ℕ) (p : Particle) (hr : ∀ j, 0 ≤ env.random j)
    (hp : 0 ≤ p.age ∧ baseTTL ≤ p.lifetime) :
    0 ≤ (stepParticle cfg env w h cy ch t k p).particle.age ∧
    baseTTL ≤ (stepParticle cfg env w h cy ch t k p).particle.lifetime := by
  by_cases hout : outOfBounds w h p
  · rw [stepParticle_oob_eq cfg env w h cy ch t k p hout]
    exact initParticle_age_ttl cfg env w cy ch k hr
  · by_cases hage : p.age + 1 > p.lifetime
    · rw [stepParticle_ageRespawn_eq cfg env w h cy ch t k p hout hage]
      exact initParticle_age_ttl cfg env w cy ch k hr
    · rw [stepParticle_survive_eq cfg env w h cy ch t k p hout hage]
      dsimp only
      exact ⟨by linarith [hp.1], hp.2⟩

theorem initParticles_age_ttl (cfg : Config) (env : Env) (w cy ch : ℚ)
    (hr : ∀ j, 0 ≤ env.random j) :
    ∀ n k, ageInv (initParticles cfg env w cy ch n k).1 := by
  intro n
  induction n with
  | zero =>
      intro k q hq
      simp [initParticles] at hq
  | succ n ih =>
      intro k q hq
      simp only [initParticles, List.mem_cons] at hq
      rcases hq with hq | hq
      · rw [hq]
        exact initParticle_age_ttl cfg env w cy ch k hr
      · exact ih _ q hq

theorem stepParticles_age_ttl (cfg : Config) (env : Env) (w h cy ch : ℚ)
    (t : ℕ) (hr : ∀ j, 0 ≤ env.random j) :
    ∀ (ps : List Particle) (k : ℕ), ageInv ps →
      ageInv (stepParticles cfg env w h cy ch t ps k).particles := by
  intro ps
  induction ps with
  | nil =>
      intro k _ q hq
      simp [stepParticles] at hq
  | cons p ps ih =>
      intro k hall q hq
      simp only [stepParticles, List.mem_cons] at hq
      rcases hq with hq | hq
      · rw [hq]
        exact stepParticle_age_ttl cfg env w h cy ch t k p hr
          (hall p (List.mem_cons_self p ps))
      · exact ih _ (fun q' hq' => hall q' (List.mem_cons_of_mem p hq')) q hq

/-- C9: every particle of the field has non-negative age and lifetime at
least `baseTTL = 50` — at allocation, and preserved by every frame — and for
any such particle the alpha `fadeInOut age lifetime` computed during a frame
divides by a strictly positive lifetime and lands in `[0, 1]`. -/
theorem alpha_well_defined (cfg : Config) (env : Env) (w h now : ℚ)
    (hr : ∀ j, 0 ≤ env.random j) :
    ageInv (initSim cfg env w h now).particles ∧
    (∀ (s : SimState) (now2 : ℚ), ageInv s.particles →
      ageInv ((tickSim cfg env now2 s).1).particles) ∧
    (∀ p : Particle, 0 ≤ p.age → baseTTL ≤ p.lifetime →
      0 < p.lifetime ∧ 0 ≤ fadeInOut p.age p.lifetime ∧
        fadeInOut p.age p.lifetime ≤ 1) := by
  refine ⟨?_, ?_, ?_⟩
  · rw [initSim_particles]
    exact initParticles_age_ttl cfg env w (h / 2) cfg.baseHue hr _ _
  · intro s now2 hs
    rw [tickSim_particles]
    exact stepParticles_age_ttl cfg env s.canvasW s.canvasH s.center.2 _ _ hr
      s.particles _ hs
  · intro p hage httl
    have hpos : 0 < p.lifetime := by
      have : (0 : ℚ) < baseTTL := by norm_num [baseTTL]
      linarith
    exact ⟨hpos, fadeInOut_mem p.age p.lifetime hage hpos⟩

/-- Witness for C9: the alpha of a concrete particle with age 7 and
lifetime 60. -/
theorem alpha_well_defined_witness :
    0 < farParticle.lifetime ∧
    0 ≤ fadeInOut farParticle.age farParticle.lifetime ∧
    fadeInOut farParticle.age farParticle.lifetime ≤ 1 :=
  (alpha_well_defined {} calmEnv 100 100 0
      (fun _ => by norm_num [calmEnv])).2.2 farParticle
    (by norm_num [farParticle]) (by norm_num [farParticle, baseTTL])

/-! ## C10: direction components stay in [-1, 1] -/

theorem initParticle_vel (cfg : Config) (env : Env) (w cy ch : ℚ) (k : ℕ)
    (hr : ∀ j, 0 ≤ env.random j)
    (hb : 0 ≤ cfg.baseSpeed) (hrs : 0 ≤ cfg.rangeSpeed) :
    |(initParticle cfg env w cy ch k).1.vx| ≤ 1 ∧
    |(initParticle cfg env w cy ch k).1.vy| ≤ 1 ∧
    0 ≤ (initParticle cfg env w cy ch k).1.speed := by
  obtain ⟨-, -, hVx, hVy, -, -, hSp, -, -, -⟩ :=
    initParticle_fields cfg env w cy ch k
  rw [hVx, hVy, hSp]
  have := rand_nonneg cfg.rangeSpeed (env.random (k + 3)) hrs (hr _)
  norm_num
  linarith

theorem stepParticle_vel (cfg : Config) (env : Env) (w h cy ch : ℚ)
    (t k : ℕ) (p : Particle) (hr : ∀ j, 0 ≤ env.random j)
    (hcos : ∀ a b c, |env.cosAngle a b c| ≤ 1)
    (hsin : ∀ a b c, |env.sinAngle a b c| ≤ 1)
    (hb : 0 ≤ cfg.baseSpeed) (hrs : 0 ≤ cfg.rangeSpeed)
    (hp : |p.vx| ≤ 1 ∧ |p.vy| ≤ 1 ∧ 0 ≤ p.speed) :
    |(stepParticle cfg env w h cy ch t k p).particle.vx| ≤ 1 ∧
    |(stepParticle cfg env w h cy ch t k p).particle.vy| ≤ 1 ∧
    0 ≤ (stepParticle cfg env w h cy ch t k p).particle.speed := by
  by_cases hout : outOfBounds w h p
  · rw [stepParticle_oob_eq cfg env w h cy ch t k p hout]
    exact initParticle_vel cfg env w cy ch k hr hb hrs
  · by_cases hage : p.age + 1 > p.lifetime
    · rw [stepParticle_ageRespawn_eq cfg env w h cy ch t k p hout hage]
      exact initParticle_vel cfg env w cy ch k hr hb hrs
    · rw [stepParticle_survive_eq cfg env w h cy ch t k p hout hage]
      dsimp only
      exact ⟨abs_lerp_half_le _ _ hp.1 (hcos _ _ _),
        abs_lerp_half_le _ _ hp.2.1 (hsin _ _ _), hp.2.2⟩

theorem initParticles_vel (cfg : Config) (env : Env) (w cy ch : ℚ)
    (hr : ∀ j, 0 ≤ env.random j)
    (hb : 0 ≤ cfg.baseSpeed) (hrs : 0 ≤ cfg.rangeSpeed) :
    ∀ n k, velInv (initParticles cfg env w cy ch n k).1 := by
  intro n
  induction n with
  | zero =>
      intro k q hq
      simp [initParticles] at hq
  | succ n ih =>
      intro k q hq
      simp only [initParticles, List.mem_cons] at hq
      rcases hq with hq | hq
      · rw [hq]
        exact initParticle_vel cfg env w cy ch k hr hb hrs
      · exact ih _ q hq

theorem stepParticles_vel (cfg : Config) (env : Env) (w h cy ch : ℚ) (t : ℕ)
    (hr : ∀ j, 0 ≤ env.random j)
    (hcos : ∀ a b c, |env.cosAngle a b c| ≤ 1)
    (hsin : ∀ a b c, |env.sinAngle a b c| ≤ 1)
    (hb : 0 ≤ cfg.baseSpeed) (hrs : 0 ≤ cfg.rangeSpeed) :
    ∀ (ps : List Particle) (k : ℕ), velInv ps →
      velInv (stepParticles cfg env w h cy ch t ps k).particles := by
  intro ps
  induction ps with
  | nil =>
      intro k _ q hq
      simp [stepParticles] at hq
  | cons p ps ih =>
      intro k hall q hq
      simp only [stepParticles, List.mem_cons] at hq
      rcases hq with hq | hq
      · rw [hq]
        exact stepParticle_vel cfg env w h cy ch t k p hr hcos hsin hb hrs
          (hall p (List.mem_cons_self p ps))
      · exact ih _ (fun q' hq' => hall q' (List.mem_cons_of_mem p hq')) q hq

/-- C10: spawned particles start with `vx = vy = 0`; assuming the noise
angle's cosine and sine are in `[-1, 1]` (and a non-negatively configured
speed), every particle of the field keeps both direction components in
`[-1, 1]` — at allocation and after every frame — and a surviving in-bounds
particle moves by at most its speed along each axis in one frame. -/
theorem velocity_bounded (cfg : Config) (env : Env) (w h now cy ch : ℚ)
    (k : ℕ) (hr : ∀ j, 0 ≤ env.random j)
    (hcos : ∀ a b c, |env.cosAngle a b c| ≤ 1)
    (hsin : ∀ a b c, |env.sinAngle a b c| ≤ 1)
    (hb : 0 ≤ cfg.baseSpeed) (hrs : 0 ≤ cfg.rangeSpeed) :
    ((initParticle cfg env w cy ch k).1.vx = 0 ∧
      (initParticle cfg env w cy ch k).1.vy = 0) ∧
    velInv (initSim cfg env w h now).particles ∧
    (∀ (s : SimState) (now2 : ℚ), velInv s.particles →
      velInv ((tickSim cfg env now2 s).1).particles) ∧
    (∀ (p : Particle) (t k2 : ℕ), ¬ outOfBounds w h p →
      ¬ (p.age + 1 > p.lifetime) →
      |p.vx| ≤ 1 → |p.vy| ≤ 1 → 0 ≤ p.speed →
      |(stepParticle cfg env w h cy ch t k2 p).particle.x - p.x| ≤ p.speed ∧
      |(stepParticle cfg env w h cy ch t k2 p).particle.y - p.y| ≤ p.speed) := by
  refine ⟨⟨?_, ?_⟩, ?_, ?_, ?_⟩
  · exact (initParticle_fields cfg env w cy ch k).2.2.1
  · exact (initParticle_fields cfg env w cy ch k).2.2.2.1
  · rw [initSim_particles]
    exact initParticles_vel cfg env w (h / 2) cfg.baseHue hr hb hrs _ _
  · intro s now2 hs
    rw [tickSim_particles]
    exact stepParticles_vel cfg env s.canvasW s.canvasH s.center.2 _ _ hr
      hcos hsin hb hrs s.particles _ hs
  · intro p t k2 hout hage hvx hvy hsp
    rw [stepParticle_survive_eq cfg env w h cy ch t k2 p hout hage]
    dsimp only
    constructor
    · rw [show p.x + lerp p.vx
          (env.cosAngle (p.x * xOff) (p.y * yOff) ((t : ℚ) * zOff)) (1 / 2)
            * p.speed - p.x
          = lerp p.vx
              (env.cosAngle (p.x * xOff) (p.y * yOff) ((t : ℚ) * zOff)) (1 / 2)
            * p.speed by ring]
      rw [abs_mul, abs_of_nonneg hsp]
      calc |lerp p.vx (env.cosAngle (p.x * xOff) (p.y * yOff) ((t : ℚ) * zOff))
              (1 / 2)| * p.speed
          ≤ 1 * p.speed := by
            exact mul_le_mul_of_nonneg_right
              (abs_lerp_half_le _ _ hvx (hcos _ _ _)) hsp
        _ = p.speed := one_mul _
    · rw [show p.y + lerp p.vy
          (env.sinAngle (p.x * xOff) (p.y * yOff) ((t : ℚ) * zOff)) (1 / 2)
            * p.speed - p.y
          = lerp p.vy
              (env.sinAngle (p.x * xOff) (p.y * yOff) ((t : ℚ) * zOff)) (1 / 2)
            * p.speed by ring]
      rw [abs_mul, abs_of_nonneg hsp]
      calc |lerp p.vy (env.sinAngle (p.x * xOff) (p.y * yOff) ((t : ℚ) * zOff))
              (1 / 2)| * p.speed
          ≤ 1 * p.speed := by
            exact mul_le_mul_of_nonneg_right
              (abs_lerp_half_le _ _ hvy (hsin _ _ _)) hsp
        _ = p.speed := one_mul _

/-- Witness for C10: the spawned direction is zero and a surviving particle
at `(10, 10)` moves by at most its speed, in the quiet environment. -/
theorem velocity_bounded_witness :
    ((initParticle {} calmEnv 100 50 220 0).1.vx = 0 ∧
      (initParticle {} calmEnv 100 50 220 0).1.vy = 0) ∧
    |(stepParticle {} calmEnv 100 100 50 220 1 0 shortLivedParticle).particle.x
        - shortLivedParticle.x| ≤ shortLivedParticle.speed :=
  ⟨(velocity_bounded {} calmEnv 100 100 0 50 220 0
      (fun _ => by norm_num [calmEnv])
      (fun _ _ _ => by norm_num [calmEnv])
      (fun _ _ _ => by norm_num [calmEnv])
      (by norm_num) (by norm_num)).1,
    ((velocity_bounded {} calmEnv 100 100 0 50 220 0
      (fun _ => by norm_num [calmEnv])
      (fun _ _ _ => by norm_num [calmEnv])
      (fun _ _ _ => by norm_num [calmEnv])
      (by norm_num) (by norm_num)).2.2.2 shortLivedParticle 1 0
      (by with_unfolding_all decide) (by with_unfolding_all decide)
      (by norm_num [shortLivedParticle]) (by norm_num [shortLivedParticle])
      (by norm_num [shortLivedParticle])).1⟩

end Vortex

namespace Vortex

/-! ## C3: the end-to-end scenario keeps x bounded -/

theorem box_initParticle (env : Env) (cy ch : ℚ) (k : ℕ)
    (hr : ∀ j, 0 ≤ env.random j ∧ env.random j < 1) :
    ((-51 : ℚ) ≤ (initParticle boxDemoCfg env 100 cy ch k).1.x ∧
      (initParticle boxDemoCfg env 100 cy ch k).1.x ≤ 151) ∧
    |(initParticle boxDemoCfg env 100 cy ch k).1.vx| ≤ 1 ∧
    (initParticle boxDemoCfg env 100 cy ch k).1.speed = 1 := by
  obtain ⟨hX, -, hVx, -, -, -, hSp, -, -, -⟩ :=
    initParticle_fields boxDemoCfg env 100 cy ch k
  rw [hX, hVx, hSp]
  have hx := rand_mem 100 (env.random k) (by norm_num) (hr _).1 (hr _).2
  refine ⟨⟨by linarith [hx.1], by linarith [hx.2]⟩, by norm_num, ?_⟩
  simp [boxDemoCfg, rand]

theorem box_stepParticle (env : Env) (cy ch : ℚ) (t k : ℕ) (p : Particle)
    (hr : ∀ j, 0 ≤ env.random j ∧ env.random j < 1)
    (hcos : ∀ a b c, |env.cosAngle a b c| ≤ 1)
    (hp : ((-51 : ℚ) ≤ p.x ∧ p.x ≤ 151) ∧ |p.vx| ≤ 1 ∧ p.speed = 1) :
    ((-51 : ℚ) ≤ (stepParticle boxDemoCfg env 100 100 cy ch t k p).particle.x ∧
      (stepParticle boxDemoCfg env 100 100 cy ch t k p).particle.x ≤ 151) ∧
    |(stepParticle boxDemoCfg env 100 100 cy ch t k p).particle.vx| ≤ 1 ∧
    (stepParticle boxDemoCfg env 100 100 cy ch t k p).particle.speed = 1 := by
  by_cases hout : outOfBounds 100 100 p
  · rw [stepParticle_oob_eq boxDemoCfg env 100 100 cy ch t k p hout]
    exact box_initParticle env cy ch k hr
  · by_cases hage : p.age + 1 > p.lifetime
    · rw [stepParticle_ageRespawn_eq boxDemoCfg env 100 100 cy ch t k p hout hage]
      exact box_initParticle env cy ch k hr
    · rw [stepParticle_survive_eq boxDemoCfg env 100 100 cy ch t k p hout hage]
      dsimp only
      have hbox : ¬ (p.x < -50 ∨ p.x > 100 + 50 ∨ p.y < -50 ∨ p.y > 100 + 50) := hout
      push_neg at hbox
      have hv := abs_lerp_half_le p.vx
        (env.cosAngle (p.x * xOff) (p.y * yOff) ((t : ℚ) * zOff))
        hp.2.1 (hcos _ _ _)
      rw [abs_le] at hv
      refine ⟨⟨?_, ?_⟩, ?_, hp.2.2⟩
      · rw [hp.2.2]
        have := hbox.1
        linarith [hv.1]
      · rw [hp.2.2]
        have := hbox.2.1
        linarith [hv.2]
      · rw [abs_le]
        exact hv

theorem box_initParticles (env : Env) (cy ch : ℚ)
    (hr : ∀ j, 0 ≤ env.random j ∧ env.random j < 1) :
    ∀ n k, boxInv (initParticles boxDemoCfg env 100 cy ch n k).1 := by
  intro n
  induction n with
  | zero =>
      intro k q hq
      simp [initParticles] at hq
  | succ n ih =>
      intro k q hq
      simp only [initParticles, List.mem_cons] at hq
      rcases hq with hq | hq
      · rw [hq]
        exact box_initParticle env cy ch k hr
      · exact ih _ q hq

theorem box_stepParticles (env : Env) (cy ch : ℚ) (t : ℕ)
    (hr : ∀ j, 0 ≤ env.random j ∧ env.random j < 1)
    (hcos : ∀ a b c, |env.cosAngle a b c| ≤ 1) :
    ∀ (ps : List Particle) (k : ℕ), boxInv ps →
      boxInv (stepParticles boxDemoCfg env 100 100 cy ch t ps k).particles := by
  intro ps
  induction ps with
  | nil =>
      intro k _ q hq
      simp [stepParticles] at hq
  | cons p ps ih =>
      intro k hall q hq
      simp only [stepParticles, List.mem_cons] at hq
      rcases hq with hq | hq
      · rw [hq]
        exact box_stepParticle env cy ch t k p hr hcos
          (hall p (List.mem_cons_self p ps))
      · exact ih _ (fun q' hq' => hall q' (List.mem_cons_of_mem p hq')) q hq

theorem box_runSim (env : Env) (nowAt : ℕ → ℚ)
    (hr : ∀ j, 0 ≤ env.random j ∧ env.random j < 1)
    (hcos : ∀ a b c, |env.cosAngle a b c| ≤ 1) :
    ∀ (n : ℕ) (s : SimState), s.canvasW = 100 → s.canvasH = 100 →
      boxInv s.particles →
      (runSim boxDemoCfg env nowAt n s).canvasW = 100 ∧
      (runSim boxDemoCfg env nowAt n s).canvasH = 100 ∧
      boxInv (runSim boxDemoCfg env nowAt n s).particles := by
  intro n
  induction n with
  | zero => intro s hW hH hs; exact ⟨hW, hH, hs⟩
  | succ n ih =>
      intro s hW hH hs
      have hW' : (tickSim boxDemoCfg env (nowAt s.tick) s).1.canvasW = 100 := hW
      have hH' : (tickSim boxDemoCfg env (nowAt s.tick) s).1.canvasH = 100 := hH
      have hs' : boxInv (tickSim boxDemoCfg env (nowAt s.tick) s).1.particles := by
        rw [tickSim_particles]
        rw [hW, hH] at *
        have := box_stepParticles env s.center.2
          (stepColor env (nowAt s.tick) s.k s.color).1.current (s.tick + 1)
          hr hcos s.particles (stepColor env (nowAt s.tick) s.k s.color).2 hs
        rw [hW, hH]
        exact this
      exact ih _ hW' hH' hs'

/-- C3 (amended): in the end-to-end scenario (`particleCount = 10`,
`baseHue = 0`, `rangeSpeed = 0`, `baseSpeed = 1` on a 100×100 surface), for
every admissible environment (random stream in `[0, 1)`, noise-angle cosine
in `[-1, 1]`) and every clock, after any number of ticks every particle's
stored `x` is a (finite) rational in `[-51, 151]`. -/
theorem box_scenario_x_bounded (env : Env) (nowAt : ℕ → ℚ) (t0 : ℚ) (n : ℕ)
    (hr : ∀ j, 0 ≤ env.random j ∧ env.random j < 1)
    (hcos : ∀ a b c, |env.cosAngle a b c| ≤ 1) :
    ∀ p ∈ (runSim boxDemoCfg env nowAt n
        (initSim boxDemoCfg env 100 100 t0)).particles,
      (-51 : ℚ) ≤ p.x ∧ p.x ≤ 151 := by
  have hinit : boxInv (initSim boxDemoCfg env 100 100 t0).particles := by
    rw [initSim_particles]
    exact box_initParticles env (100 / 2) boxDemoCfg.baseHue hr _ _
  have h := box_runSim env nowAt hr hcos n
    (initSim boxDemoCfg env 100 100 t0) rfl rfl hinit
  intro p hp
  exact (h.2.2 p hp).1

set_option maxRecDepth 400000 in
/-- Witness for C3 (amended): the first particle of the scenario right after
allocation, in the adversarial environment. -/
theorem box_scenario_x_bounded_witness :
    (-51 : ℚ) ≤ (boxDemoRun 0).particles.headI.x ∧
    (boxDemoRun 0).particles.headI.x ≤ 151 :=
  box_scenario_x_bounded boxDemoEnv (fun _ => 0) 0 0
    (fun j => by
      simp only [boxDemoEnv]
      split_ifs <;> norm_num)
    (fun a b c => by norm_num [boxDemoEnv])
    (boxDemoRun 0).particles.headI
    (by with_unfolding_all decide)

set_option maxRecDepth 400000 in
/-- Counterexample to C3 as stated: in the very scenario of the claim, with
an admissible random stream and a noise angle that always projects to
cosine 1, the first particle's stored `x` exceeds 150 after 52 ticks
(about 150.5), outside the claimed `[-50, 150]`. -/
theorem box_scenario_x_escapes :
    150 < (boxDemoRun 52).particles.headI.x := by
  with_unfolding_all decide

end Vortex

namespace Vortex

/-! ## C1: age-driven respawn after exactly ceil(lifetime)+1 ticks -/

theorem runP_succ_last (cfg : Config) (env : Env) (w h cy : ℚ)
    (hueAt : ℕ → ℚ) : ∀ (n t0 : ℕ) (st : PState),
    runP cfg env w h cy hueAt t0 (n + 1) st
      = stepP cfg env w h cy (hueAt (t0 + n)) (t0 + n)
          (runP cfg env w h cy hueAt t0 n st) := by
  intro n
  induction n with
  | zero => intro t0 st; rfl
  | succ n ih =>
      intro t0 st
      show runP cfg env w h cy hueAt (t0 + 1) (n + 1)
          (stepP cfg env w h cy (hueAt t0) t0 st)
        = stepP cfg env w h cy (hueAt (t0 + (n + 1))) (t0 + (n + 1))
            (runP cfg env w h cy hueAt t0 (n + 1) st)
      rw [ih (t0 + 1) (stepP cfg env w h cy (hueAt t0) t0 st)]
      have harr : t0 + 1 + n = t0 + (n + 1) := by omega
      rw [harr]
      rfl

/-- C1: a freshly spawned particle (age 0, non-negative lifetime) that never
leaves the expanded bounding box during the next `⌈lifetime⌉ + 1` frames is
respawned exactly once in that window: no frame whose index is still
`≤ lifetime` respawns it, and at the respawn frame its incremented age
exceeded the lifetime, after which the slot holds age 0 and the freshly
drawn lifetime `baseTTL + rand rangeTTL`. -/
theorem age_respawn_once (cfg : Config) (env : Env) (w h cy : ℚ)
    (hueAt : ℕ → ℚ) (t0 : ℕ) (p : Particle) (k : ℕ)
    (hr : ∀ j, 0 ≤ env.random j)
    (hage0 : p.age = 0) (hL : 0 ≤ p.lifetime)
    (hin : ∀ m, m < ⌈p.lifetime⌉.toNat + 1 →
      ¬ outOfBounds w h (runP cfg env w h cy hueAt t0 m ⟨p, k, 0⟩).p) :
    (runP cfg env w h cy hueAt t0 (⌈p.lifetime⌉.toNat + 1)
        ⟨p, k, 0⟩).respawns = 1 ∧
    (∀ m : ℕ, (m : ℚ) ≤ p.lifetime →
      (runP cfg env w h cy hueAt t0 m ⟨p, k, 0⟩).respawns = 0) ∧
    (∃ m, m < ⌈p.lifetime⌉.toNat + 1 ∧
      p.lifetime < (runP cfg env w h cy hueAt t0 m ⟨p, k, 0⟩).p.age + 1 ∧
      (runP cfg env w h cy hueAt t0 (m + 1) ⟨p, k, 0⟩).p.age = 0 ∧
      (runP cfg env w h cy hueAt t0 (m + 1) ⟨p, k, 0⟩).p.lifetime
        = baseTTL + rand rangeTTL (env.random (k + 2))) := by
  set N := ⌈p.lifetime⌉.toNat + 1 with hNdef
  set F := ⌊p.lifetime⌋.toNat with hFdef
  have hfl0 : (0 : ℤ) ≤ ⌊p.lifetime⌋ := Int.floor_nonneg.mpr hL
  have hFz : (F : ℤ) = ⌊p.lifetime⌋ := Int.toNat_of_nonneg hfl0
  have hFQ : (F : ℚ) ≤ p.lifetime := by
    have hfloor := Int.floor_le p.lifetime
    rw [← hFz] at hfloor
    exact_mod_cast hfloor
  have hFQ1 : p.lifetime < (F : ℚ) + 1 := by
    have hflt := Int.lt_floor_add_one p.lifetime
    rw [← hFz] at hflt
    exact_mod_cast hflt
  have hFN1 : F + 1 ≤ N := by
    have hc := Int.floor_le_ceil p.lifetime
    have htn := Int.toNat_le_toNat hc
    omega
  have hNF2 : N ≤ F + 2 := by
    have hc := Int.ceil_le_floor_add_one p.lifetime
    have htn := Int.toNat_le_toNat hc
    omega
  have pre : ∀ m, m ≤ F →
      (runP cfg env w h cy hueAt t0 m ⟨p, k, 0⟩).p.age = (m : ℚ) ∧
      (runP cfg env w h cy hueAt t0 m ⟨p, k, 0⟩).p.lifetime = p.lifetime ∧
      (runP cfg env w h cy hueAt t0 m ⟨p, k, 0⟩).k = k ∧
      (runP cfg env w h cy hueAt t0 m ⟨p, k, 0⟩).respawns = 0 := by
    intro m
    induction m with
    | zero =>
        intro _
        refine ⟨?_, rfl, rfl, rfl⟩
        show p.age = ((0 : ℕ) : ℚ)
        rw [hage0]
        norm_num
    | succ m ih =>
        intro hm
        obtain ⟨ha, hl, hk, hres⟩ := ih (by omega)
        have hout := hin m (by omega)
        have hageOK : ¬ ((runP cfg env w h cy hueAt t0 m ⟨p, k, 0⟩).p.age + 1
            > (runP cfg env w h cy hueAt t0 m ⟨p, k, 0⟩).p.lifetime) := by
          rw [ha, hl]
          push_neg
          have hmq : ((m : ℚ) + 1) ≤ (F : ℚ) := by exact_mod_cast hm
          linarith
        rw [runP_succ_last cfg env w h cy hueAt m t0 ⟨p, k, 0⟩]
        unfold stepP
        rw [stepParticle_survive_eq cfg env w h cy (hueAt (t0 + m)) (t0 + m)
          (runP cfg env w h cy hueAt t0 m ⟨p, k, 0⟩).k
          (runP cfg env w h cy hueAt t0 m ⟨p, k, 0⟩).p hout hageOK]
        dsimp only
        refine ⟨?_, hl, hk, by simp [hres]⟩
        rw [ha]
        push_cast
        ring
  obtain ⟨haF, hlF, hkF, hresF⟩ := pre F le_rfl
  have houtF := hin F (by omega)
  have hageF : (runP cfg env w h cy hueAt t0 F ⟨p, k, 0⟩).p.age + 1
      > (runP cfg env w h cy hueAt t0 F ⟨p, k, 0⟩).p.lifetime := by
    rw [haF, hlF]
    linarith
  have hF1 : (runP cfg env w h cy hueAt t0 (F + 1) ⟨p, k, 0⟩).p
        = (initParticle cfg env w cy (hueAt (t0 + F)) k).1 ∧
      (runP cfg env w h cy hueAt t0 (F + 1) ⟨p, k, 0⟩).k = k + 6 ∧
      (runP cfg env w h cy hueAt t0 (F + 1) ⟨p, k, 0⟩).respawns = 1 := by
    rw [runP_succ_last cfg env w h cy hueAt F t0 ⟨p, k, 0⟩]
    unfold stepP
    rw [stepParticle_ageRespawn_eq cfg env w h cy (hueAt (t0 + F)) (t0 + F)
      (runP cfg env w h cy hueAt t0 F ⟨p, k, 0⟩).k
      (runP cfg env w h cy hueAt t0 F ⟨p, k, 0⟩).p houtF hageF]
    dsimp only
    rw [hkF]
    exact ⟨rfl, rfl, by simp [hresF]⟩
  have concl2 : ∀ m : ℕ, (m : ℚ) ≤ p.lifetime →
      (runP cfg env w h cy hueAt t0 m ⟨p, k, 0⟩).respawns = 0 := by
    intro m hm
    have hmz : (m : ℤ) ≤ ⌊p.lifetime⌋ := Int.le_floor.mpr (by exact_mod_cast hm)
    exact (pre m (by omega)).2.2.2
  have hcase : N = F + 1 ∨ N = F + 1 + 1 := by omega
  refine ⟨?_, concl2, ⟨F, by omega, ?_, ?_, ?_⟩⟩
  · rcases hcase with hN | hN
    · rw [hN]
      exact hF1.2.2
    · rw [hN]
      have hout2 := hin (F + 1) (by omega)
      have hage2 : ¬ ((runP cfg env w h cy hueAt t0 (F + 1) ⟨p, k, 0⟩).p.age + 1
          > (runP cfg env w h cy hueAt t0 (F + 1) ⟨p, k, 0⟩).p.lifetime) := by
        rw [hF1.1]
        push_neg
        show (0 : ℚ) + 1 ≤ baseTTL + rand rangeTTL (env.random (k + 2))
        have hpos := rand_nonneg rangeTTL (env.random (k + 2))
          (by norm_num [rangeTTL]) (hr _)
        have hbp : (50 : ℚ) = baseTTL := by norm_num [baseTTL]
        linarith [hbp ▸ le_refl (50 : ℚ)]
      rw [runP_succ_last cfg env w h cy hueAt (F + 1) t0 ⟨p, k, 0⟩]
      unfold stepP
      rw [stepParticle_survive_eq cfg env w h cy (hueAt (t0 + (F + 1)))
        (t0 + (F + 1))
        (runP cfg env w h cy hueAt t0 (F + 1) ⟨p, k, 0⟩).k
        (runP cfg env w h cy hueAt t0 (F + 1) ⟨p, k, 0⟩).p hout2 hage2]
      dsimp only
      rw [hF1.2.2]
      simp
  · rw [haF]
    exact hFQ1
  · rw [hF1.1]
    rfl
  · rw [hF1.1]
    rfl

/-- Witness for C1: an in-bounds particle with age 0 and lifetime 3 in the
quiet environment is respawned exactly once within `⌈3⌉ + 1 = 4` frames. -/
theorem age_respawn_once_witness :
    (runP {} calmEnv 100 100 50 (fun _ => 0) 0
        (⌈shortLivedParticle.lifetime⌉.toNat + 1)
        ⟨shortLivedParticle, 0, 0⟩).respawns = 1 :=
  (age_respawn_once {} calmEnv 100 100 50 (fun _ => 0) 0
      shortLivedParticle 0
      (fun _ => by norm_num [calmEnv])
      (by norm_num [shortLivedParticle])
      (by norm_num [shortLivedParticle])
      (by with_unfolding_all decide)).1

end Vortex
